import Mathlib

/-!
Verification of the `urltitel.py` weechat script (title-fetching pipeline).

Python strings are modelled as lists of characters (`PyStr`); Python
exceptions are modelled with `Except PyErr`.  Each definition mirrors the
homonymous function of `src/urltitel.py`; line numbers in the doc comments
refer to that file.
-/

namespace Urltitel

/-- A Python string, modelled as its list of characters. -/
abbrev PyStr := List Char

/-- Python exceptions that the modelled code can raise. -/
inductive PyErr where
  /-- `urllib.error.URLError` (connection failure). -/
  | urlError
  /-- `socket.timeout`. -/
  | socketTimeout
  /-- `json.JSONDecodeError` raised by `json.load`. -/
  | jsonDecodeError
  /-- `KeyError` raised by a failed dictionary lookup. -/
  | keyError
  /-- `IndexError` raised by list indexing out of range. -/
  | indexError
  deriving Repr, DecidableEq

/-- Python `str.lower`.  `Char.toLower` lowers the ASCII range; the script
only compares server and channel names, which are ASCII in IRC. -/
def pyLower (s : PyStr) : PyStr := s.map Char.toLower

/-- Helper for `pySplitChar`: returns the field up to the first separator
and the list of the remaining fields. -/
def pySplitCharAux (sep : Char) : PyStr → PyStr × List PyStr
  | [] => ([], [])
  | c :: rest =>
    let r := pySplitCharAux sep rest
    if c = sep then ([], r.1 :: r.2) else (c :: r.1, r.2)

/-- Python `str.split(sep)` for a one-character separator: splits on every
occurrence, keeping empty fields, and yields `[s]` when `sep` is absent
(`"".split(",") == [""]`). -/
def pySplitChar (sep : Char) (l : PyStr) : List PyStr :=
  (pySplitCharAux sep l).1 :: (pySplitCharAux sep l).2

/-- Python list indexing `l[i]`: raises `IndexError` out of range. -/
def pyIndex {α : Type} (l : List α) (i : Nat) : Except PyErr α :=
  match l.get? i with
  | some x => Except.ok x
  | none => Except.error PyErr.indexError

/-- The body of the loop of `srvchan_in_list` (src lines 333-338): evaluate
the condition
`(_srv_chan[0] == "*" or srv_chan[0] == _srv_chan[0]) and
 (_srv_chan[1] == "*" or srv_chan[1] == _srv_chan[1])`
for one pattern, with the Python evaluation order (short-circuit, every
index access may raise `IndexError`). -/
def srvchanMatchStep (srv_chan : List PyStr) (p : PyStr) : Except PyErr Bool :=
  let ps := pySplitChar ',' (pyLower p)
  match pyIndex ps 0 with
  | Except.error e => Except.error e
  | Except.ok p0 =>
    match (if p0 = ['*'] then Except.ok true
           else match pyIndex srv_chan 0 with
                | Except.error e => Except.error e
                | Except.ok s0 => Except.ok (decide (s0 = p0))) with
    | Except.error e => Except.error e
    | Except.ok left =>
      if left then
        match pyIndex ps 1 with
        | Except.error e => Except.error e
        | Except.ok p1 =>
          if p1 = ['*'] then Except.ok true
          else match pyIndex srv_chan 1 with
               | Except.error e => Except.error e
               | Except.ok s1 => Except.ok (decide (s1 = p1))
      else Except.ok false

/-- The loop of `srvchan_in_list` (src lines 333-339): return `True` on the
first matching pattern, propagate a raised exception, else `False`. -/
def srvchanLoop (srv_chan : List PyStr) : List PyStr → Except PyErr Bool
  | [] => Except.ok false
  | p :: rest =>
    match srvchanMatchStep srv_chan p with
    | Except.error e => Except.error e
    | Except.ok true => Except.ok true
    | Except.ok false => srvchanLoop srv_chan rest

/-- `srvchan_in_list` (src lines 324-339): check whether a `server,channel`
candidate is matched by a list of patterns, lower-casing both sides and
splitting on commas. -/
def srvchan_in_list (srvchan : PyStr) (srvchan_list : List PyStr) :
    Except PyErr Bool :=
  srvchanLoop (pySplitChar ',' (pyLower srvchan)) srvchan_list

/-- Specification-side matcher for one pattern field (spec section 4.1): the
field matches iff it is the wildcard `*` or equals the candidate field
case-insensitively. -/
def fieldMatches (pat cand : PyStr) : Bool :=
  pat = ['*'] || pyLower pat = pyLower cand

/-! Helper lemmas about the string primitives. -/

theorem toNat_toLower (c : Char) :
    (Char.toLower c).toNat
      = if 65 ≤ c.toNat ∧ c.toNat ≤ 90 then c.toNat + 32 else c.toNat := by
  simp only [Char.toLower]
  split
  · rename_i h
    have hv : (c.toNat + 32).isValidChar := Or.inl (by omega)
    rw [Char.ofNat, dif_pos hv]
    simp [Char.ofNatAux, Char.toNat, UInt32.toNat]
  · rfl

theorem char_eq_of_toNat_eq {c d : Char} (h : c.toNat = d.toNat) : c = d :=
  Char.ext (UInt32.toNat.inj h)

theorem toLower_eq_comma {c : Char} : c.toLower = ',' ↔ c = ',' := by
  constructor
  · intro h
    have h1 := congrArg Char.toNat h
    rw [toNat_toLower] at h1
    have h2 : c.toNat = (',' : Char).toNat := by
      have : (',' : Char).toNat = 44 := rfl
      rw [this] at h1 ⊢
      split at h1 <;> omega
    exact char_eq_of_toNat_eq h2
  · intro h; subst h; rfl

theorem toLower_eq_star {c : Char} : c.toLower = '*' ↔ c = '*' := by
  constructor
  · intro h
    have h1 := congrArg Char.toNat h
    rw [toNat_toLower] at h1
    have h2 : c.toNat = ('*' : Char).toNat := by
      have : ('*' : Char).toNat = 42 := rfl
      rw [this] at h1 ⊢
      split at h1 <;> omega
    exact char_eq_of_toNat_eq h2
  · intro h; subst h; rfl

theorem comma_not_mem_pyLower {s : PyStr} (h : ',' ∉ s) : ',' ∉ pyLower s := by
  intro hmem
  rcases List.mem_map.1 hmem with ⟨c, hc, hlow⟩
  exact h (by rwa [toLower_eq_comma.1 hlow] at hc)

theorem pySplitCharAux_no_sep {sep : Char} :
    ∀ {l : PyStr}, sep ∉ l → pySplitCharAux sep l = (l, []) := by
  intro l
  induction l with
  | nil => intro _; rfl
  | cons c rest ih =>
    intro h
    have hc : c ≠ sep := fun he => h (he ▸ List.mem_cons_self c rest)
    have hrest : sep ∉ rest := fun hm => h (List.mem_cons_of_mem c hm)
    simp [pySplitCharAux, ih hrest, hc]

theorem pySplitChar_no_sep {sep : Char} {l : PyStr} (h : sep ∉ l) :
    pySplitChar sep l = [l] := by
  simp [pySplitChar, pySplitCharAux_no_sep h]

theorem pySplitCharAux_append {sep : Char} {a b : PyStr} (ha : sep ∉ a) :
    pySplitCharAux sep (a ++ sep :: b)
      = (a, (pySplitCharAux sep b).1 :: (pySplitCharAux sep b).2) := by
  induction a with
  | nil => simp [pySplitCharAux]
  | cons c rest ih =>
    have hc : c ≠ sep := fun he => ha (he ▸ List.mem_cons_self c rest)
    have hrest : sep ∉ rest := fun hm => ha (List.mem_cons_of_mem c hm)
    simp [pySplitCharAux, ih hrest, hc]

/-- Splitting a lower-cased well-formed candidate gives its two fields. -/
theorem split_candidate {s c : PyStr} (hs : ',' ∉ s) (hc : ',' ∉ c) :
    pySplitChar ',' (pyLower (s ++ ',' :: c)) = [pyLower s, pyLower c] := by
  have h1 : pyLower (s ++ ',' :: c) = pyLower s ++ ',' :: pyLower c := by
    simp [pyLower]
  rw [pySplitChar, h1, pySplitCharAux_append (comma_not_mem_pyLower hs),
      pySplitCharAux_no_sep (comma_not_mem_pyLower hc)]

theorem pyLower_eq_star {p : PyStr} : pyLower p = ['*'] ↔ p = ['*'] := by
  constructor
  · intro h
    cases p with
    | nil => simp [pyLower] at h
    | cons c rest =>
      simp only [pyLower, List.map_cons, List.cons.injEq] at h
      obtain ⟨h1, h2⟩ := h
      have : rest = [] := List.map_eq_nil_iff.1 h2
      simp [toLower_eq_star.1 h1, this]
  · intro h; subst h; rfl

/-- On a well-formed pattern and candidate, the loop body computes exactly
the boolean condition of src lines 335-337 and raises nothing. -/
theorem srvchanMatchStep_eval {s c ps pc : PyStr} (hs : ',' ∉ s) (hc : ',' ∉ c)
    (hps : ',' ∉ ps) (hpc : ',' ∉ pc) :
    srvchanMatchStep (pySplitChar ',' (pyLower (s ++ ',' :: c)))
        (ps ++ ',' :: pc)
      = Except.ok ((pyLower ps = ['*'] || pyLower s = pyLower ps)
                    && (pyLower pc = ['*'] || pyLower c = pyLower pc)) := by
  rw [split_candidate hs hc]
  unfold srvchanMatchStep
  rw [split_candidate hps hpc]
  by_cases h0 : pyLower ps = ['*'] <;> by_cases h1 : pyLower pc = ['*'] <;>
    by_cases h2 : pyLower s = pyLower ps <;>
    by_cases h3 : pyLower c = pyLower pc <;>
    simp [pyIndex, h0, h1, h2, h3]

/-- The boolean condition of one loop iteration, as evaluated by the code,
agrees with the spec-side field matcher for one field. -/
theorem field_cond_eq (pat cand : PyStr) :
    ((pyLower pat = ['*'] : Bool) || (pyLower cand = pyLower pat))
      = fieldMatches pat cand := by
  unfold fieldMatches
  have h1 : (decide (pyLower pat = ['*'])) = (decide (pat = ['*'])) :=
    decide_eq_decide.2 pyLower_eq_star
  have h2 : (decide (pyLower cand = pyLower pat))
      = (decide (pyLower pat = pyLower cand)) :=
    decide_eq_decide.2 eq_comm
  rw [h1, h2]

/-- The evaluated step condition agrees with the spec-side field matcher. -/
theorem step_cond_eq_fieldMatches (s c ps pc : PyStr) :
    ((pyLower ps = ['*'] || pyLower s = pyLower ps)
      && (pyLower pc = ['*'] || pyLower c = pyLower pc))
      = (fieldMatches ps s && fieldMatches pc c) := by
  rw [field_cond_eq ps s, field_cond_eq pc c]

/-! Claims C8 and C10: the channel-policy matcher. -/

/-- C8: for every candidate `ServerChannel` and every pattern list whose
entries have the form `server,channel`, `srvchan_in_list` returns true iff
some pattern matches, where a pattern matches iff each of its two fields
independently is the wildcard `*` or equals the corresponding candidate
field case-insensitively; the pattern `*,*` matches every candidate and the
empty list matches no candidate. -/
theorem c8_srvchan_in_list_correct (s c : PyStr) (pats : List (PyStr × PyStr))
    (hs : ',' ∉ s) (hc : ',' ∉ c)
    (hp : ∀ p ∈ pats, ',' ∉ p.1 ∧ ',' ∉ p.2) :
    srvchan_in_list (s ++ ',' :: c) (pats.map fun p => p.1 ++ ',' :: p.2)
        = Except.ok (pats.any fun p => fieldMatches p.1 s && fieldMatches p.2 c)
    ∧ srvchan_in_list (s ++ ',' :: c) [['*', ',', '*']] = Except.ok true
    ∧ srvchan_in_list (s ++ ',' :: c) [] = Except.ok false := by
  have main : ∀ (l : List (PyStr × PyStr)), (∀ p ∈ l, ',' ∉ p.1 ∧ ',' ∉ p.2) →
      srvchanLoop (pySplitChar ',' (pyLower (s ++ ',' :: c)))
          (l.map fun p => p.1 ++ ',' :: p.2)
        = Except.ok (l.any fun p => fieldMatches p.1 s && fieldMatches p.2 c) := by
    intro l
    induction l with
    | nil => intro _; rfl
    | cons p rest ih =>
      intro hl
      obtain ⟨hp1, hp2⟩ := hl p (List.mem_cons_self p rest)
      have hrest := fun q hq => hl q (List.mem_cons_of_mem p hq)
      simp only [List.map_cons, srvchanLoop]
      rw [srvchanMatchStep_eval hs hc hp1 hp2, step_cond_eq_fieldMatches]
      cases hb : (fieldMatches p.1 s && fieldMatches p.2 c) with
      | true => simp [List.any_cons, hb]
      | false => simp [List.any_cons, hb, ih hrest]
  refine ⟨main pats hp, ?_, rfl⟩
  have h2 := main [(['*'], ['*'])] (by simp)
  simp only [List.map_cons, List.map_nil] at h2
  have h3 : srvchan_in_list (s ++ ',' :: c) [['*', ',', '*']]
      = Except.ok ([((['*'] : PyStr), (['*'] : PyStr))].any
          fun p => fieldMatches p.1 s && fieldMatches p.2 c) := h2
  rw [h3]
  simp [fieldMatches]

/-- C8 witness: a mixed-case candidate matched by a mixed-case pattern. -/
theorem c8_srvchan_in_list_correct_witness :
    srvchan_in_list ("Libera".toList ++ ',' :: "#Chan".toList)
        ([(("libERA".toList : PyStr), ("#chan".toList : PyStr))].map
          fun p => p.1 ++ ',' :: p.2)
      = Except.ok true :=
  ((c8_srvchan_in_list_correct "Libera".toList "#Chan".toList
      [("libERA".toList, "#chan".toList)]
      (by decide) (by decide) (by decide)).1).trans
    (congrArg Except.ok (by decide))

/-- C10 counterexample: the claim says a no-comma pattern whose text differs
case-insensitively from the candidate server field makes the call return
false; but the wildcard pattern `*` differs from the server field `srv` and
the call nevertheless raises `IndexError`. -/
theorem c10_counterexample :
    srvchan_in_list ("srv,#chan".toList) [['*']] = Except.error PyErr.indexError
    ∧ pyLower ['*'] ≠ pyLower ("srv".toList) := by
  constructor
  · rfl
  · decide

/-- C10 (amended): `srvchan_in_list` accesses a pattern channel field (index
1 after splitting on comma) only after the server field matched; for a
pattern with no comma the call returns false when the pattern text is not
the wildcard `*` and differs case-insensitively from the candidate server
field, and raises `IndexError` when the pattern is `*` or equals the server
field case-insensitively. -/
theorem c10_no_comma_pattern (s c p : PyStr) (hs : ',' ∉ s) (hc : ',' ∉ c)
    (hp : ',' ∉ p) :
    (p ≠ ['*'] → pyLower p ≠ pyLower s →
        srvchan_in_list (s ++ ',' :: c) [p] = Except.ok false)
    ∧ (p = ['*'] ∨ pyLower p = pyLower s →
        srvchan_in_list (s ++ ',' :: c) [p]
          = Except.error PyErr.indexError) := by
  have hlp : ',' ∉ pyLower p := comma_not_mem_pyLower hp
  constructor
  · intro hne hneq
    have h1 : pyLower p ≠ ['*'] := fun he => hne (pyLower_eq_star.1 he)
    have h2 : ¬ (pyLower s = pyLower p) := fun he => hneq he.symm
    unfold srvchan_in_list srvchanLoop srvchanMatchStep
    rw [split_candidate hs hc, pySplitChar_no_sep hlp]
    simp [pyIndex, h1, h2, srvchanLoop]
  · intro hor
    unfold srvchan_in_list srvchanLoop srvchanMatchStep
    rw [split_candidate hs hc, pySplitChar_no_sep hlp]
    rcases hor with he | he
    · have hst : pyLower p = ['*'] := by rw [he]; rfl
      simp [pyIndex, hst]
    · have hsym : pyLower s = pyLower p := he.symm
      by_cases h1 : pyLower p = ['*']
      · simp [pyIndex, h1]
      · simp [pyIndex, h1, hsym]

/-- C10 witness: concrete no-comma patterns, one returning false, one
raising `IndexError`. -/
theorem c10_no_comma_pattern_witness :
    srvchan_in_list ("srv".toList ++ ',' :: "#chan".toList)
        [("other".toList : PyStr)] = Except.ok false
    ∧ srvchan_in_list ("srv".toList ++ ',' :: "#chan".toList)
        [("SRV".toList : PyStr)] = Except.error PyErr.indexError := by
  constructor
  · exact (c10_no_comma_pattern "srv".toList "#chan".toList "other".toList
      (by decide) (by decide) (by decide)).1 (by decide) (by decide)
  · exact (c10_no_comma_pattern "srv".toList "#chan".toList "SRV".toList
      (by decide) (by decide) (by decide)).2 (Or.inr (by decide))

/-! The whitespace pass of `get_title` (src lines 170-177). -/

/-- The character class of the Python regex `\s` (matching `str.isspace`):
ASCII whitespace, the C1 separators, and the Unicode space separators. -/
def isPySpace (c : Char) : Bool :=
  let n := c.toNat
  (9 ≤ n && n ≤ 13) || (28 ≤ n && n ≤ 32) || n = 133 || n = 160 ||
    n = 0x1680 || (0x2000 ≤ n && n ≤ 0x200A) || n = 0x2028 || n = 0x2029 ||
    n = 0x202F || n = 0x205F || n = 0x3000

/-- One iteration of the whitespace-collapsing loop of `get_title`
(src lines 172-176): copy a non-whitespace character, emit a single space
for a whitespace character whose predecessor exists and is not whitespace,
drop it otherwise. -/
def strip_step (title : PyStr) (acc : PyStr) (ic : Nat × Char) : PyStr :=
  if !(isPySpace ic.2) then acc ++ [ic.2]
  else if ic.1 != 0 && !(isPySpace (title.getD (ic.1 - 1) ' ')) then acc ++ [' ']
  else acc

/-- The whitespace-collapsing loop of `get_title` (src lines 171-176):
`for i, char in enumerate(title)` accumulating into `stripped_title`. -/
def collapse_ws (title : PyStr) : PyStr :=
  title.enum.foldl (strip_step title) []

/-- Drop a trailing run of whitespace (the right half of Python
`str.strip()`). -/
def dropTrailWs : PyStr → PyStr
  | [] => []
  | c :: rest =>
    match dropTrailWs rest with
    | [] => if isPySpace c then [] else [c]
    | r => c :: r

/-- Python `str.strip()`: drop leading and trailing whitespace. -/
def pyStrip (s : PyStr) : PyStr := dropTrailWs (s.dropWhile isPySpace)

/-- The whole whitespace pass of `get_title` (src lines 171-177): collapse
runs, then `strip()`. -/
def strip_title (title : PyStr) : PyStr := pyStrip (collapse_ws title)

/-- Structural twin of the collapsing loop: the boolean carries whether the
previous character exists and is not whitespace. -/
def collapseGo (prevNonWs : Bool) : PyStr → PyStr
  | [] => []
  | c :: rest =>
    if isPySpace c then
      (if prevNonWs then [' '] else []) ++ collapseGo false rest
    else c :: collapseGo true rest

/-- Checker: no two adjacent whitespace characters. -/
def noAdjacentWs : PyStr → Bool
  | [] => true
  | [_] => true
  | a :: b :: rest => !(isPySpace a && isPySpace b) && noAdjacentWs (b :: rest)

theorem foldl_enum_collapse (title : PyStr) :
    ∀ (suffix : PyStr) (k : Nat) (acc : PyStr), title.drop k = suffix →
    (List.enumFrom k suffix).foldl (strip_step title) acc
      = acc ++ collapseGo (k != 0 && !isPySpace (title.getD (k-1) ' ')) suffix := by
  intro suffix
  induction suffix with
  | nil => intro k acc _; simp [collapseGo]
  | cons c rest ih =>
    intro k acc h
    have hgk : title[k]? = some c := by
      rw [← List.head?_drop, h]; rfl
    have hdrop : title.drop (k+1) = rest := by
      rw [← List.drop_drop, h]; rfl
    have hgetD : title.getD k ' ' = c := by
      simp [List.getD_eq_getElem?_getD, hgk]
    rw [show List.enumFrom k (c :: rest) = (k, c) :: List.enumFrom (k+1) rest
        from rfl]
    rw [List.foldl_cons, ih (k+1) _ hdrop]
    have hflag : ((k+1 : Nat) != 0 && !isPySpace (title.getD (k+1-1) ' '))
        = !isPySpace c := by
      rw [Nat.add_sub_cancel, hgetD]
      simp
    rw [hflag]
    by_cases hc : isPySpace c
    · rw [collapseGo, if_pos hc]
      cases hb : (k != 0 && !isPySpace (title.getD (k-1) ' ')) with
      | true =>
        have hstep : strip_step title acc (k, c) = acc ++ [' '] := by
          simp only [strip_step]
          rw [hc, Bool.not_true, if_neg (by simp), if_pos hb]
        rw [hstep, hc]
        simp [List.append_assoc]
      | false =>
        have hstep : strip_step title acc (k, c) = acc := by
          simp only [strip_step]
          rw [hc, Bool.not_true, if_neg (by simp),
            if_neg (by rw [hb]; simp)]
        rw [hstep, hc]
        simp
    · rw [collapseGo, if_neg hc]
      have hc' : isPySpace c = false := by simpa using hc
      have hstep : strip_step title acc (k, c) = acc ++ [c] := by
        simp only [strip_step]
        rw [hc', Bool.not_false, if_pos rfl]
      rw [hstep, hc']
      simp [List.append_assoc]

theorem collapse_ws_eq_go (title : PyStr) :
    collapse_ws title = collapseGo false title := by
  have h := foldl_enum_collapse title title 0 [] rfl
  simpa [collapse_ws, List.enum] using h

theorem collapseGo_head :
    ∀ (l : PyStr) (c : Char), (collapseGo false l).head? = some c →
      isPySpace c = false := by
  intro l
  induction l with
  | nil => intro c h; simp [collapseGo] at h
  | cons d rest ih =>
    intro c h
    by_cases hd : isPySpace d
    · rw [collapseGo, if_pos hd] at h
      exact ih c (by simpa using h)
    · rw [collapseGo, if_neg hd] at h
      simp only [List.head?_cons, Option.some.injEq] at h
      subst h
      exact Bool.not_eq_true _ ▸ (by simpa using hd)

theorem noAdjacentWs_cons {c : Char} {l : PyStr}
    (h1 : ∀ d, l.head? = some d → (isPySpace c && isPySpace d) = false)
    (h2 : noAdjacentWs l = true) : noAdjacentWs (c :: l) = true := by
  cases l with
  | nil => rfl
  | cons d rest =>
    simp only [noAdjacentWs]
    rw [h1 d rfl]
    simpa using h2

theorem noAdjacentWs_tail {c : Char} {l : PyStr}
    (h : noAdjacentWs (c :: l) = true) : noAdjacentWs l = true := by
  cases l with
  | nil => rfl
  | cons d rest =>
    simp only [noAdjacentWs, Bool.and_eq_true] at h
    exact h.2

theorem collapseGo_noAdj : ∀ (l : PyStr) (b : Bool),
    noAdjacentWs (collapseGo b l) = true := by
  intro l
  induction l with
  | nil => intro b; rfl
  | cons c rest ih =>
    intro b
    by_cases hc : isPySpace c
    · rw [collapseGo, if_pos hc]
      cases b with
      | false => simpa using ih false
      | true =>
        simp only [if_true, List.singleton_append]
        refine noAdjacentWs_cons (fun d hd => ?_) (ih false)
        have := collapseGo_head rest d hd
        simp [this]
    · rw [collapseGo, if_neg hc]
      refine noAdjacentWs_cons (fun d _ => ?_) (ih true)
      have : isPySpace c = false := by simpa using hc
      simp [this]

theorem collapseGo_mem_ws : ∀ (l : PyStr) (b : Bool) (c : Char),
    c ∈ collapseGo b l → isPySpace c = true → c = ' ' := by
  intro l
  induction l with
  | nil => intro b c h; simp [collapseGo] at h
  | cons d rest ih =>
    intro b c h hc
    by_cases hd : isPySpace d
    · rw [collapseGo, if_pos hd] at h
      cases b with
      | false => exact ih false c (by simpa using h) hc
      | true =>
        simp only [if_true, List.singleton_append, List.mem_cons] at h
        rcases h with h | h
        · exact h
        · exact ih false c h hc
    · rw [collapseGo, if_neg hd] at h
      rcases List.mem_cons.1 h with h | h
      · subst h; rw [hc] at hd; exact absurd rfl hd
      · exact ih true c h hc

theorem collapseGo_filter : ∀ (l : PyStr) (b : Bool),
    (collapseGo b l).filter (fun c => !isPySpace c)
      = l.filter (fun c => !isPySpace c) := by
  intro l
  induction l with
  | nil => intro b; rfl
  | cons c rest ih =>
    intro b
    by_cases hc : isPySpace c
    · rw [collapseGo, if_pos hc]
      cases b with
      | false => simp [List.filter_cons, hc, ih false]
      | true =>
        simp [List.filter_cons, hc, ih false,
          show isPySpace ' ' = true from by decide]
    · rw [collapseGo, if_neg hc]
      have : isPySpace c = false := by simpa using hc
      simp [List.filter_cons, this, ih true]

/-! Facts about `pyStrip`. -/

theorem head_dropWhile {p : Char → Bool} :
    ∀ (l : PyStr) (c : Char), (l.dropWhile p).head? = some c → p c = false := by
  intro l
  induction l with
  | nil => intro c h; simp [List.dropWhile] at h
  | cons a rest ih =>
    intro c h
    by_cases ha : p a
    · rw [List.dropWhile_cons, if_pos ha] at h
      exact ih c h
    · rw [List.dropWhile_cons, if_neg ha] at h
      simp only [List.head?_cons, Option.some.injEq] at h
      subst h
      simpa using ha

theorem mem_dropWhile {p : Char → Bool} :
    ∀ {l : PyStr} {c : Char}, c ∈ l.dropWhile p → c ∈ l := by
  intro l
  induction l with
  | nil => intro c h; simp [List.dropWhile] at h
  | cons a rest ih =>
    intro c h
    by_cases ha : p a
    · rw [List.dropWhile_cons, if_pos ha] at h
      exact List.mem_cons_of_mem a (ih h)
    · rwa [List.dropWhile_cons, if_neg ha] at h

theorem noAdjacentWs_dropWhile {p : Char → Bool} :
    ∀ {l : PyStr}, noAdjacentWs l = true → noAdjacentWs (l.dropWhile p) = true := by
  intro l
  induction l with
  | nil => intro _; rfl
  | cons a rest ih =>
    intro h
    by_cases ha : p a
    · rw [List.dropWhile_cons, if_pos ha]
      exact ih (noAdjacentWs_tail h)
    · rwa [List.dropWhile_cons, if_neg ha]

theorem dropTrailWs_head : ∀ (l : PyStr),
    dropTrailWs l = [] ∨ (dropTrailWs l).head? = l.head? := by
  intro l
  induction l with
  | nil => exact Or.inl rfl
  | cons c rest _ =>
    rw [dropTrailWs]
    cases hr : dropTrailWs rest with
    | nil =>
      by_cases hc : isPySpace c
      · exact Or.inl (by simp [hc])
      · right; simp [hc]
    | cons x xs => right; rfl

theorem dropTrailWs_mem : ∀ {l : PyStr} {c : Char}, c ∈ dropTrailWs l → c ∈ l := by
  intro l
  induction l with
  | nil => intro c h; simp [dropTrailWs] at h
  | cons a rest ih =>
    intro c h
    rw [dropTrailWs] at h
    cases hr : dropTrailWs rest with
    | nil =>
      rw [hr] at h
      by_cases ha : isPySpace a
      · simp [ha] at h
      · simp only [ha, if_false, Bool.false_eq_true, ite_false,
          List.mem_singleton] at h
        simp [h]
    | cons x xs =>
      rw [hr] at h
      rcases List.mem_cons.1 h with h | h
      · simp [h]
      · exact List.mem_cons_of_mem a (ih (hr ▸ h))

theorem noAdjacentWs_dropTrailWs :
    ∀ {l : PyStr}, noAdjacentWs l = true → noAdjacentWs (dropTrailWs l) = true := by
  intro l
  induction l with
  | nil => intro _; rfl
  | cons a rest ih =>
    intro h
    rw [dropTrailWs]
    cases hr : dropTrailWs rest with
    | nil =>
      by_cases ha : isPySpace a <;> simp [ha, noAdjacentWs]
    | cons x xs =>
      refine noAdjacentWs_cons (fun d hd => ?_) (hr ▸ ih (noAdjacentWs_tail h))
      rcases dropTrailWs_head rest with h0 | h0
      · rw [h0] at hr; cases hr
      · rw [hr] at h0
        simp only [List.head?_cons] at h0 hd
        cases hd
        cases rest with
        | nil => simp [dropTrailWs] at hr
        | cons y ys =>
          simp only [List.head?_cons, Option.some.injEq] at h0
          subst h0
          simp only [noAdjacentWs, Bool.and_eq_true] at h
          rcases h with ⟨h1, -⟩
          cases hxy : (isPySpace a && isPySpace x) with
          | false => rfl
          | true => rw [hxy] at h1; simp at h1

theorem dropTrailWs_getLast : ∀ (l : PyStr) (c : Char),
    (dropTrailWs l).getLast? = some c → isPySpace c = false := by
  intro l
  induction l with
  | nil => intro c h; simp [dropTrailWs] at h
  | cons a rest ih =>
    intro c h
    rw [dropTrailWs] at h
    cases hr : dropTrailWs rest with
    | nil =>
      rw [hr] at h
      by_cases ha : isPySpace a
      · simp [ha] at h
      · simp only [ha, if_false, Bool.false_eq_true, ite_false] at h
        simp only [List.getLast?_singleton, Option.some.injEq] at h
        subst h
        simpa using ha
    | cons x xs =>
      rw [hr] at h
      rw [List.getLast?_cons_cons] at h
      exact ih c (hr ▸ h)

theorem dropTrailWs_all_ws :
    ∀ {l : PyStr}, dropTrailWs l = [] → l.all isPySpace = true := by
  intro l
  induction l with
  | nil => intro _; rfl
  | cons a rest ih =>
    intro h
    rw [dropTrailWs] at h
    cases hr : dropTrailWs rest with
    | nil =>
      rw [hr] at h
      by_cases ha : isPySpace a
      · simp [List.all_cons, ha, ih hr]
      · simp [ha] at h
    | cons x xs => rw [hr] at h; cases h

theorem dropTrailWs_filter : ∀ (l : PyStr),
    (dropTrailWs l).filter (fun c => !isPySpace c)
      = l.filter (fun c => !isPySpace c) := by
  intro l
  induction l with
  | nil => rfl
  | cons a rest ih =>
    rw [dropTrailWs]
    cases hr : dropTrailWs rest with
    | nil =>
      have hall : rest.all isPySpace = true := dropTrailWs_all_ws hr
      have hfr : rest.filter (fun c => !isPySpace c) = [] := by
        rw [List.filter_eq_nil_iff]
        intro c hc
        have := (List.all_eq_true.1 hall) c hc
        simp [this]
      by_cases ha : isPySpace a
      · simp [List.filter_cons, ha, hfr]
      · simp [List.filter_cons, ha, hfr]
    | cons x xs =>
      show List.filter (fun c => !isPySpace c) (a :: x :: xs)
          = List.filter (fun c => !isPySpace c) (a :: rest)
      have hxs : List.filter (fun c => !isPySpace c) (x :: xs)
          = List.filter (fun c => !isPySpace c) rest := by
        rw [← hr]; exact ih
      rw [List.filter_cons, hxs, List.filter_cons]

theorem filter_dropWhile_ws (l : PyStr) :
    (l.dropWhile isPySpace).filter (fun c => !isPySpace c)
      = l.filter (fun c => !isPySpace c) := by
  induction l with
  | nil => rfl
  | cons a rest ih =>
    by_cases ha : isPySpace a
    · rw [List.dropWhile_cons, if_pos ha, ih]
      simp [List.filter_cons, ha]
    · rw [List.dropWhile_cons, if_neg ha]

/-! Claim C5: the whitespace pass. -/

/-- C5: the whitespace pass of `get_title` maps `"  Hello\n\tWorld  "` to
`"Hello World"`; and for every input, the result has no two adjacent
whitespace characters (in particular no two consecutive spaces), every
whitespace character of the result is the ASCII space (runs of Unicode
whitespace were replaced by single spaces, with all non-whitespace
characters preserved verbatim, per the filter equation), and the result has
no leading or trailing whitespace. -/
theorem c5_whitespace_normalization (s : PyStr) :
    strip_title ("  Hello\n\tWorld  ".toList) = "Hello World".toList
    ∧ noAdjacentWs (strip_title s) = true
    ∧ (∀ c ∈ strip_title s, isPySpace c = true → c = ' ')
    ∧ (∀ c, (strip_title s).head? = some c → isPySpace c = false)
    ∧ (∀ c, (strip_title s).getLast? = some c → isPySpace c = false)
    ∧ (strip_title s).filter (fun c => !isPySpace c)
        = s.filter (fun c => !isPySpace c) := by
  refine ⟨by decide, ?_, ?_, ?_, ?_, ?_⟩
  · rw [strip_title, collapse_ws_eq_go, pyStrip]
    exact noAdjacentWs_dropTrailWs
      (noAdjacentWs_dropWhile (collapseGo_noAdj s false))
  · intro c hc hws
    rw [strip_title, collapse_ws_eq_go, pyStrip] at hc
    exact collapseGo_mem_ws s false c (mem_dropWhile (dropTrailWs_mem hc)) hws
  · intro c hc
    rw [strip_title, collapse_ws_eq_go, pyStrip] at hc
    rcases dropTrailWs_head ((collapseGo false s).dropWhile isPySpace) with h0 | h0
    · rw [h0] at hc; cases hc
    · rw [h0] at hc
      exact head_dropWhile _ c hc
  · intro c hc
    rw [strip_title, collapse_ws_eq_go, pyStrip] at hc
    exact dropTrailWs_getLast _ c hc
  · rw [strip_title, collapse_ws_eq_go, pyStrip, dropTrailWs_filter,
      filter_dropWhile_ws, collapseGo_filter]

/-! The URL extractor `find_urls` (src lines 135-148) and the Send-mode
output line of `show_urls_title` (src line 315). -/

/-- Whether the string starts with the given pattern (a literal-prefix
test of the modelled regexes). -/
def listBeginsWith : PyStr → PyStr → Bool
  | [], _ => true
  | _ :: _, [] => false
  | p :: ps, c :: cs => p = c && listBeginsWith ps cs

/-- The self-echo test of `find_urls` (src line 145): the anchored regex
`^url\|\d+\): `.  The digit run is matched greedily; since `)` is not a
digit, greedy matching is exact here. -/
def matches_echo (m : PyStr) : Bool :=
  if listBeginsWith ("url|".toList) m then
    let rest := m.drop 4
    let ds := rest.takeWhile Char.isDigit
    !ds.isEmpty && listBeginsWith ("): ".toList) (rest.drop ds.length)
  else false

/-- The character class `[\w0-9@:%._\+~#=()?&/\-]` of the URL regex
(src line 135).  Python `\w` also admits Unicode word characters; the model
keeps the ASCII range, which the verified claims do not depend on. -/
def isUrlChar (c : Char) : Bool :=
  c.isAlphanum || c = '_' ||
    ['@', ':', '%', '.', '_', '+', '~', '#', '=', '(', ')', '?', '&', '/',
      '-'].any (· = c)

/-- One attempted match of `https?://[...]+` at the head of `l`: the
alternatives `https`/`http` are mutually exclusive, then a non-empty
greedy run of URL characters.  Returns the match and the rest. -/
def urlMatchAt (l : PyStr) : Option (PyStr × PyStr) :=
  if listBeginsWith ("https://".toList) l then
    let run := (l.drop 8).takeWhile isUrlChar
    if run.isEmpty then none
    else some ("https://".toList ++ run, (l.drop 8).drop run.length)
  else if listBeginsWith ("http://".toList) l then
    let run := (l.drop 7).takeWhile isUrlChar
    if run.isEmpty then none
    else some ("http://".toList ++ run, (l.drop 7).drop run.length)
  else none

/-- `re.findall` of the URL regex: scan left to right, collect
non-overlapping matches.  The fuel is the length of the scanned string. -/
def find_urls_go : Nat → PyStr → List PyStr
  | 0, _ => []
  | _, [] => []
  | fuel+1, c :: rest =>
    match urlMatchAt (c :: rest) with
    | some (m, r) => m :: find_urls_go fuel r
    | none => find_urls_go fuel rest

/-- `find_urls` (src lines 138-148): return no URL for the script's own
echo lines, else all regex matches in order. -/
def find_urls (m : PyStr) : List PyStr :=
  if matches_echo m then [] else find_urls_go m.length m

/-- The Send-mode output line `f"url|{i + 1}): {title}"` of
`show_urls_title` (src line 315); `i` is the 0-based position. -/
def send_line (i : Nat) (title : PyStr) : PyStr :=
  "url|".toList ++ (Nat.repr (i+1)).toList ++ "): ".toList ++ title

/-! Digits of `Nat.repr`. -/

theorem digitChar_isDigit {m : Nat} (h : m < 10) :
    (Nat.digitChar m).isDigit = true := by
  interval_cases m <;> decide

theorem toDigitsCore_digits :
    ∀ (fuel n : Nat) (acc : List Char), (∀ c ∈ acc, c.isDigit = true) →
      ∀ c ∈ Nat.toDigitsCore 10 fuel n acc, c.isDigit = true := by
  intro fuel
  induction fuel with
  | zero => intro n acc hacc c hc; exact hacc c hc
  | succ f ih =>
    intro n acc hacc c hc
    rw [Nat.toDigitsCore] at hc
    have hd : ∀ x ∈ Nat.digitChar (n % 10) :: acc, x.isDigit = true := by
      intro x hx
      rcases List.mem_cons.1 hx with hx | hx
      · subst hx; exact digitChar_isDigit (Nat.mod_lt n (by norm_num))
      · exact hacc x hx
    by_cases hz : n / 10 = 0
    · rw [if_pos hz] at hc
      exact hd c hc
    · rw [if_neg hz] at hc
      exact ih (n / 10) _ hd c hc

theorem toDigitsCore_ne_nil :
    ∀ (fuel n : Nat) (acc : List Char), acc ≠ [] →
      Nat.toDigitsCore 10 fuel n acc ≠ [] := by
  intro fuel
  induction fuel with
  | zero => intro n acc hacc; exact hacc
  | succ f ih =>
    intro n acc hacc
    rw [Nat.toDigitsCore]
    by_cases hz : n / 10 = 0
    · rw [if_pos hz]; exact List.cons_ne_nil _ _
    · rw [if_neg hz]; exact ih (n / 10) _ (List.cons_ne_nil _ _)

theorem repr_toList_digits (n : Nat) :
    (∀ c ∈ (Nat.repr n).toList, c.isDigit = true)
    ∧ (Nat.repr n).toList ≠ [] := by
  have h : (Nat.repr n).toList = Nat.toDigitsCore 10 (n+1) n [] := rfl
  rw [h]
  constructor
  · exact toDigitsCore_digits (n+1) n [] (by intro c hc; cases hc)
  · rw [Nat.toDigitsCore]
    by_cases hz : n / 10 = 0
    · rw [if_pos hz]; exact List.cons_ne_nil _ _
    · rw [if_neg hz]; exact toDigitsCore_ne_nil n _ _ (List.cons_ne_nil _ _)

theorem listBeginsWith_append (p r : PyStr) :
    listBeginsWith p (p ++ r) = true := by
  induction p with
  | nil => rfl
  | cons c cs ih => simp [listBeginsWith, ih]

theorem takeWhile_append_all {p : Char → Bool} :
    ∀ {a b : PyStr}, (∀ c ∈ a, p c = true) →
      List.takeWhile p (a ++ b) = a ++ List.takeWhile p b := by
  intro a
  induction a with
  | nil => intro b _; rfl
  | cons c cs ih =>
    intro b h
    have hc : p c = true := h c (List.mem_cons_self c cs)
    simp only [List.cons_append, List.takeWhile_cons, hc, if_true]
    rw [ih (fun x hx => h x (List.mem_cons_of_mem c hx))]

/-! Claim C6. -/

/-- C6: round-trip self-filtering.  The exact line produced in Send mode,
`url|<i>): <title>` with 1-based index `i+1`, when fed back into the URL
extractor `find_urls`, yields an empty URL sequence, for every position and
every title. -/
theorem c6_roundtrip_self_filtering (i : Nat) (title : PyStr) :
    find_urls (send_line i title) = [] := by
  have hds := repr_toList_digits (i+1)
  have hecho : matches_echo (send_line i title) = true := by
    rw [matches_echo, send_line]
    simp only [List.append_assoc]
    rw [if_pos (listBeginsWith_append _ _)]
    have hdrop4 : ("url|".toList ++ ((Nat.repr (i+1)).toList
        ++ ("): ".toList ++ title))).drop 4
        = (Nat.repr (i+1)).toList ++ ("): ".toList ++ title) :=
      List.drop_left "url|".toList
        ((Nat.repr (i+1)).toList ++ ("): ".toList ++ title))
    rw [hdrop4]
    rw [takeWhile_append_all hds.1]
    have htw : List.takeWhile Char.isDigit ("): ".toList ++ title) = [] := by
      simp [List.takeWhile_cons]
    rw [htw, List.append_nil]
    have hdl : ((Nat.repr (i+1)).toList ++ ("): ".toList ++ title)).drop
        (Nat.repr (i+1)).toList.length = "): ".toList ++ title :=
      List.drop_left _ _
    rw [hdl]
    simp only [Bool.and_eq_true, List.isEmpty_iff]
    refine ⟨?_, ?_⟩
    · have h2 := hds.2
      simp only [String.toList] at h2 ⊢
      simp [h2]
    · exact listBeginsWith_append "): ".toList title
  rw [find_urls, if_pos hecho]

/-! Truncation (src lines 269-271), the per-URL coordinator step of
`on_privmsg` (src lines 267-275), and the output lines of `show_urls_title`
(src lines 311-317). -/

/-- The marker the source file appends on truncation (src line 271).  The
file contains the bytes `c3 a2 e2 82 ac c2 a6`: the three characters
U+00E2, U+20AC, U+00A6 (mojibake of the single ellipsis U+2026, whose UTF-8
bytes were re-encoded). -/
def ellipsisMarker : PyStr := [Char.ofNat 0xE2, Char.ofNat 0x20AC, Char.ofNat 0xA6]

/-- The single intended ellipsis character U+2026. -/
def realEllipsis : PyStr := [Char.ofNat 0x2026]

/-- The truncation step of `on_privmsg` (src lines 270-271):
`title[0:maxlength]` plus the marker when the title is longer than
`maxlength` (Python counts code points, as `List.take` counts characters). -/
def truncate_title (maxlength : Nat) (title : PyStr) : PyStr :=
  if title.length > maxlength then title.take maxlength ++ ellipsisMarker
  else title

/-- The per-title handling of `on_privmsg` (src lines 268-273): a found
title is truncated only when non-empty; an absent title stays absent. -/
def coordinator_title (maxlength : Nat) : Option PyStr → Option PyStr
  | none => none
  | some title =>
    if title.length > 0 then some (truncate_title maxlength title)
    else some title

/-- The Display-mode output line `f"{i + 1}:\t{title}"` of
`show_urls_title` (src line 317); `i` is the 0-based position. -/
def display_line (i : Nat) (title : PyStr) : PyStr :=
  (Nat.repr (i+1)).toList ++ ":\t".toList ++ title

/-- The Display-mode lines emitted by `show_urls_title` (src lines
311-317): one line per non-absent title, absent titles emit nothing but
still consume their index. -/
def show_lines_display (titles : List (Option PyStr)) : List PyStr :=
  titles.enum.filterMap (fun p => p.2.map (display_line p.1))

/-! Claim C4. -/

/-- C4 (code evaluation at the failing input): with `maxlength = 5` the
title `HelloWorld` is truncated to `Hello` followed by the three-character
mojibake marker, which differs from the intended `Hello…` (five characters
plus the single ellipsis U+2026); the length bound `maxlength` plus the
(three-character) marker holds for every input. -/
theorem c4_truncation_eval :
    truncate_title 5 ("HelloWorld".toList)
        = "Hello".toList ++ ellipsisMarker
    ∧ truncate_title 5 ("HelloWorld".toList) ≠ "Hello".toList ++ realEllipsis
    ∧ ∀ (ml : Nat) (t : PyStr), (truncate_title ml t).length ≤ ml + 3 := by
  refine ⟨by decide, by decide, ?_⟩
  intro ml t
  rw [truncate_title]
  split
  · rename_i h
    simp only [List.length_append, List.length_take, ellipsisMarker,
      List.length_cons, List.length_nil]
    omega
  · rename_i h
    omega

/-! The Content-Type gate of `fetch_html` (src lines 118-126). -/

/-- A parsed URL, mirroring `urllib.parse.ParseResult`. -/
structure ParseResult where
  scheme : PyStr
  netloc : PyStr
  path : PyStr
  params : PyStr
  query : PyStr
  fragment : PyStr
  deriving Repr, DecidableEq

/-- A fetched document (the `Document` named tuple, src lines 79-84). -/
structure Document where
  url : ParseResult
  src : PyStr
  deriving Repr, DecidableEq

/-- An HTTP response as seen by `fetch_html`: the `Content-Type` header and
the body stream.  The body is modelled at text level; the
`read(maxdownload)` byte cap becomes a character cap, a distinction no
verified claim depends on. -/
structure HttpResponse where
  contentType : PyStr
  body : PyStr

/-- The regex test `re.match(".*/html.*", contentType)` (src line 119):
`.` does not cross a newline, so the match succeeds iff `/html` occurs
with no newline before it. -/
def reMatchHtml : PyStr → Bool
  | [] => false
  | c :: rest =>
    if listBeginsWith ("/html".toList) (c :: rest) then true
    else if c = '\n' then false
    else reMatchHtml rest

/-- The response handling of `fetch_html` (src lines 118-126): on a passed
Content-Type test, read at most `maxdownload` and build a `Document`; else
return `None` without reading the body. -/
def fetch_handle_response (maxdownload : Nat) (url_parsed : ParseResult)
    (res : HttpResponse) : Option Document :=
  if reMatchHtml res.contentType then
    some ⟨url_parsed, res.body.take maxdownload⟩
  else none

theorem listBeginsWith_iff (p : PyStr) :
    ∀ l, listBeginsWith p l = true ↔ ∃ r, l = p ++ r := by
  induction p with
  | nil => intro l; simp [listBeginsWith]
  | cons c cs ih =>
    intro l
    cases l with
    | nil =>
      simp only [listBeginsWith, List.cons_append]
      constructor
      · intro h; cases h
      · rintro ⟨r, hr⟩; cases hr
    | cons d ds =>
      simp only [listBeginsWith, Bool.and_eq_true, decide_eq_true_eq,
        List.cons_append]
      rw [ih ds]
      constructor
      · rintro ⟨hcd, r, hr⟩
        exact ⟨r, by rw [hcd, hr]⟩
      · rintro ⟨r, hr⟩
        injection hr with h1 h2
        exact ⟨h1.symm, r, h2⟩

theorem reMatchHtml_iff : ∀ l : PyStr,
    reMatchHtml l = true
      ↔ ∃ a b, l = a ++ "/html".toList ++ b ∧ '\n' ∉ a := by
  intro l
  induction l with
  | nil =>
    simp only [reMatchHtml]
    constructor
    · intro h; cases h
    · rintro ⟨a, b, hab, -⟩
      exact absurd hab.symm (by simp)
  | cons c rest ih =>
    rw [reMatchHtml]
    by_cases hb : listBeginsWith ("/html".toList) (c :: rest) = true
    · rw [if_pos hb]
      rcases (listBeginsWith_iff _ _).1 hb with ⟨r, hr⟩
      simp only [true_iff]
      exact ⟨[], r, by simpa using hr, by simp⟩
    · rw [if_neg hb]
      by_cases hc : c = '\n'
      · rw [if_pos hc]
        constructor
        · intro h; cases h
        · rintro ⟨a, b, hab, hna⟩
          cases a with
          | nil =>
            exact (hb ((listBeginsWith_iff _ _).2 ⟨b, by simpa using hab⟩)).elim
          | cons x xs =>
            injection hab with h1 _
            exact (hna (by rw [← h1, hc]; exact List.mem_cons_self _ _)).elim
      · rw [if_neg hc, ih]
        constructor
        · rintro ⟨a, b, hab, hna⟩
          refine ⟨c :: a, b, by simp [hab], ?_⟩
          intro hmem
          rcases List.mem_cons.1 hmem with h | h
          · exact hc h.symm
          · exact hna h
        · rintro ⟨a, b, hab, hna⟩
          cases a with
          | nil =>
            exact absurd ((listBeginsWith_iff _ _).2 ⟨b, by simpa using hab⟩) hb
          | cons x xs =>
            injection hab with h1 h2
            exact ⟨xs, b, h2, fun hm => hna (List.mem_cons_of_mem x hm)⟩

/-- A concrete parsed URL used by closed theorems. -/
def exampleUrl : ParseResult :=
  ⟨"https".toList, "example.com".toList, "/".toList, [], [], []⟩

/-! Claim C3. -/

/-- C3 counterexample: the Content-Type `application/xhtml+xml` contains
the substring `html`, yet the response handling of `fetch_html` constructs
no document for it (the regex `.*/html.*` requires `/html`). -/
theorem c3_counterexample :
    fetch_handle_response 262144 exampleUrl
        ⟨"application/xhtml+xml".toList, "<title>x</title>".toList⟩ = none
    ∧ ∃ a b : PyStr,
        "application/xhtml+xml".toList = a ++ "html".toList ++ b :=
  ⟨rfl, "application/x".toList, "+xml".toList, by decide⟩

/-- C3 (amended): a successful response yields a `Document` iff its
Content-Type matches `.*/html.*`, i.e. contains the substring `/html` with
no newline before it (containing just `html`, as in
`application/xhtml+xml`, is not enough); otherwise the body is discarded
and the outcome is `None`. -/
theorem c3_content_type_gate (maxdownload : Nat) (u : ParseResult)
    (res : HttpResponse) :
    (∃ d, fetch_handle_response maxdownload u res = some d)
      ↔ ∃ a b, res.contentType = a ++ "/html".toList ++ b ∧ '\n' ∉ a := by
  rw [← reMatchHtml_iff]
  rw [fetch_handle_response]
  by_cases h : reMatchHtml res.contentType = true
  · rw [if_pos h]
    simp [h]
  · rw [if_neg h]
    constructor
    · rintro ⟨d, hd⟩; cases hd
    · intro hh; exact absurd hh h

/-! The URL normalisation of `fetch_html` (src lines 94-113): models of
`urllib.parse.urlparse`, `urllib.parse.quote` and `urllib.parse.urlunparse`
(CPython algorithm; the tab/newline removal, IPv6 bracket validation and
netloc check of CPython are omitted - no verified claim involves those
inputs). -/

/-- First index of a character, Python `str.find` (absent for `-1`). -/
def pyFindChar (s : PyStr) (c : Char) : Option Nat := s.findIdx? (· = c)

/-- Split at the first occurrence of `c`, Python `str.split(c, 1)` when `c`
occurs. -/
def splitOnFirst (s : PyStr) (c : Char) : Option (PyStr × PyStr) :=
  match pyFindChar s c with
  | none => none
  | some i => some (s.take i, s.drop (i+1))

/-- The characters allowed in a URL scheme. -/
def isSchemeChar (c : Char) : Bool :=
  c.isAlphanum || c = '+' || c = '-' || c = '.'

/-- The scheme step of `urlsplit`: a valid scheme before the first colon is
split off and lower-cased. -/
def splitScheme (url : PyStr) : PyStr × PyStr :=
  match pyFindChar url ':' with
  | none => ([], url)
  | some i =>
    let pre := url.take i
    if 0 < i
        && (match url.head? with | some c0 => c0.isAlpha | none => false)
        && pre.all isSchemeChar
    then (pyLower pre, url.drop (i+1))
    else ([], url)

/-- The netloc step of `urlsplit`: after `//`, up to the first of
`/`, `?`, `#`. -/
def splitNetloc (url : PyStr) : PyStr × PyStr :=
  if url.take 2 = ['/', '/'] then
    let rest := url.drop 2
    let netloc := rest.takeWhile (fun c => !(c = '/' || c = '?' || c = '#'))
    (netloc, rest.drop netloc.length)
  else ([], url)

/-- Last index of a character, Python `str.rfind`. -/
def pyRFindChar (s : PyStr) (c : Char) : Option Nat :=
  match s.reverse.findIdx? (· = c) with
  | none => none
  | some j => some (s.length - 1 - j)

/-- First index of `c` at or after `start`, Python `str.find(c, start)`. -/
def pyFindCharFrom (s : PyStr) (c : Char) (start : Nat) : Option Nat :=
  match (s.drop start).findIdx? (· = c) with
  | none => none
  | some j => some (start + j)

/-- CPython `_splitparams`, called only when `;` occurs in the path. -/
def splitParams (url : PyStr) : PyStr × PyStr :=
  match pyRFindChar url '/' with
  | some k =>
    match pyFindCharFrom url ';' k with
    | none => (url, [])
    | some i => (url.take i, url.drop (i+1))
  | none =>
    match pyFindChar url ';' with
    | none => (url, [])
    | some i => (url.take i, url.drop (i+1))

/-- `urllib.parse.urlparse`: scheme, netloc, fragment, query, params. -/
def urlparse (url : PyStr) : ParseResult :=
  let sr := splitScheme url
  let nr := splitNetloc sr.2
  let fr := match splitOnFirst nr.2 '#' with
    | some ab => ab
    | none => (nr.2, [])
  let qr := match splitOnFirst fr.1 '?' with
    | some ab => ab
    | none => (fr.1, [])
  let pp := if qr.1.contains ';' then splitParams qr.1 else (qr.1, [])
  ⟨sr.1, nr.1, pp.1, pp.2, qr.2, fr.2⟩

/-- The characters `urllib.parse.quote` never encodes. -/
def alwaysSafe (c : Char) : Bool :=
  c.isAlpha || c.isDigit || c = '_' || c = '.' || c = '-' || c = '~'

/-- UTF-8 bytes of a character. -/
def utf8Bytes (c : Char) : List Nat :=
  let n := c.toNat
  if n < 0x80 then [n]
  else if n < 0x800 then [0xC0 + n / 0x40, 0x80 + n % 0x40]
  else if n < 0x10000 then
    [0xE0 + n / 0x1000, 0x80 + (n / 0x40) % 0x40, 0x80 + n % 0x40]
  else
    [0xF0 + n / 0x40000, 0x80 + (n / 0x1000) % 0x40,
      0x80 + (n / 0x40) % 0x40, 0x80 + n % 0x40]

/-- Upper-case hexadecimal digit. -/
def hexDigitUpper (n : Nat) : Char :=
  if n < 10 then Char.ofNat (48 + n) else Char.ofNat (55 + n)

/-- `%XX` encoding of one byte. -/
def percentEncodeByte (b : Nat) : PyStr :=
  ['%', hexDigitUpper (b / 16), hexDigitUpper (b % 16)]

/-- `urllib.parse.quote` with its default `safe='/'`: keep unreserved
characters and `/`, percent-encode the UTF-8 bytes of everything else. -/
def pyQuote (s : PyStr) : PyStr :=
  s.flatMap fun c =>
    if alwaysSafe c || c = '/' then [c]
    else (utf8Bytes c).flatMap percentEncodeByte

/-- `urllib.parse.urlunparse` (via `urlunsplit`). -/
def urlunparse (p : ParseResult) : PyStr :=
  let u1 := if p.params ≠ [] then p.path ++ ';' :: p.params else p.path
  let u2 :=
    if p.netloc ≠ [] ∨ (u1 ≠ [] ∧ u1.take 2 = ['/', '/']) then
      '/' :: '/' :: (p.netloc ++
        (if u1 ≠ [] ∧ u1.take 1 ≠ ['/'] then '/' :: u1 else u1))
    else u1
  let u3 := if p.scheme ≠ [] then p.scheme ++ ':' :: u2 else u2
  let u4 := if p.query ≠ [] then u3 ++ '?' :: p.query else u3
  if p.fragment ≠ [] then u4 ++ '#' :: p.fragment else u4

/-- Python truthiness of a string-valued option. -/
def truthy (s : PyStr) : Bool := !s.isEmpty

/-- The request URL computed by `fetch_html` before the GET (src lines
96-113): when neither the parsed netloc nor the parsed path contains `%`,
the URL is rebuilt with the optional `http`→`https` rewrite and
percent-encoding of netloc and path; otherwise the URL is used unchanged.
Note the source tests the truthiness of the option string
`script_options["http_rewrite"]`, not `== "on"`. -/
def fetch_request_url (http_rewrite : PyStr) (url : PyStr) : PyStr :=
  let url_parsed := urlparse url
  if !url_parsed.netloc.contains '%' && !url_parsed.path.contains '%' then
    urlunparse
      { scheme := if truthy http_rewrite && url_parsed.scheme = "http".toList
                  then "https".toList else url_parsed.scheme,
        netloc := pyQuote url_parsed.netloc,
        path := pyQuote url_parsed.path,
        params := url_parsed.params,
        query := url_parsed.query,
        fragment := url_parsed.fragment }
  else url

theorem listBeginsWith_append_right {p l : PyStr} (r : PyStr)
    (h : listBeginsWith p l = true) : listBeginsWith p (l ++ r) = true := by
  rcases (listBeginsWith_iff p l).1 h with ⟨t, ht⟩
  subst ht
  rw [List.append_assoc]
  exact listBeginsWith_append p (t ++ r)

theorem urlunparse_scheme_https (p : ParseResult)
    (h : p.scheme = "https".toList) :
    listBeginsWith ("https:".toList) (urlunparse p) = true := by
  obtain ⟨s, n, pa, pr, q, f⟩ := p
  simp only at h
  subst h
  simp only [urlunparse]
  have key : ∀ (l : PyStr),
      listBeginsWith ("https:".toList) ("https".toList ++ ':' :: l) = true := by
    intro l
    have hsplit : ("https:".toList : PyStr) = "https".toList ++ [':'] := by
      decide
    have he : ("https".toList : PyStr) ++ ':' :: l = "https:".toList ++ l := by
      rw [hsplit, List.append_assoc]
      rfl
    rw [he]
    exact listBeginsWith_append _ _
  have key2 : ∀ (l : PyStr),
      listBeginsWith ("https:".toList)
        (if ("https".toList : PyStr) ≠ [] then "https".toList ++ ':' :: l
         else l) = true := by
    intro l
    rw [if_pos (by decide)]
    exact key l
  split
  · split
    · exact listBeginsWith_append_right _ (listBeginsWith_append_right _ (key2 _))
    · exact listBeginsWith_append_right _ (key2 _)
  · split
    · exact listBeginsWith_append_right _ (key2 _)
    · exact key2 _

/-! Claim C2. -/

/-- C2 counterexample: with `http_rewrite` enabled, the http URL
`http://ex%41mple.com/` (its authority contains a percent character) is
requested unchanged - the scheme is not rewritten to https. -/
theorem c2_counterexample :
    fetch_request_url ("on".toList) ("http://ex%41mple.com/".toList)
        = "http://ex%41mple.com/".toList
    ∧ listBeginsWith ("https:".toList)
        (fetch_request_url ("on".toList) ("http://ex%41mple.com/".toList))
        = false := by
  constructor
  · rfl
  · rfl

/-- C2 (amended): for every input URL whose parsed scheme is `http`, if
`http_rewrite` is enabled and neither the parsed authority nor the parsed
path contains a percent character, then `fetch_html` issues its request
with the scheme rewritten to `https`; a percent character in authority or
path skips the whole rewrite-and-encode branch. -/
theorem c2_http_rewrite (url : PyStr)
    (h1 : (urlparse url).scheme = "http".toList)
    (h2 : (urlparse url).netloc.contains '%' = false)
    (h3 : (urlparse url).path.contains '%' = false) :
    listBeginsWith ("https:".toList)
      (fetch_request_url ("on".toList) url) = true := by
  rw [fetch_request_url]
  simp only [h2, h3, Bool.not_false, Bool.and_self, if_true]
  apply urlunparse_scheme_https
  simp only [h1, truthy]
  rw [if_pos (by decide)]

/-- C2 witness: a plain http URL is requested as https. -/
theorem c2_http_rewrite_witness :
    (urlparse ("http://example.com/a".toList)).scheme = "http".toList
    ∧ listBeginsWith ("https:".toList)
        (fetch_request_url ("on".toList) ("http://example.com/a".toList))
        = true :=
  ⟨by decide, c2_http_rewrite _ (by decide) (by decide) (by decide)⟩

/-! The torrent resolver (src lines 187-226) and the title extraction
`get_title` (src lines 154-184). -/

/-- Python `str.endswith`. -/
def listEndsWith (suffix l : PyStr) : Bool :=
  listBeginsWith suffix.reverse l.reverse

/-- The scan of `re.match` for the pattern
`^(?:[^&]*[&])*id=([0-9]+)$(?:[&][^&]*)*` (src line 211): an `id=`
candidate may start at the beginning or right after a `&`; its greedily
captured digit run must reach the end of the string (`$` also matches
before one trailing newline); the trailing group after `$` can only match
the empty string.  On a failed candidate the scan continues. -/
def queryIdGo : Bool → PyStr → Option PyStr
  | _, [] => none
  | atB, c :: rest =>
    if atB ∧ listBeginsWith ("id=".toList) (c :: rest) = true then
      let ds := ((c :: rest).drop 3).takeWhile Char.isDigit
      let tail := ((c :: rest).drop 3).drop ds.length
      if ds ≠ [] ∧ (tail = [] ∨ tail = ['\n']) then some ds
      else queryIdGo (decide (c = '&')) rest
    else queryIdGo (decide (c = '&')) rest

/-- `re.match(_re_query_id, query)` (src lines 211, 222): the captured
digit group, when the query matches. -/
def query_id_match (q : PyStr) : Option PyStr := queryIdGo true q

/-- Python `int` on a digit string. -/
def digitsToNat (ds : PyStr) : Nat :=
  ds.foldl (fun acc c => acc * 10 + (c.toNat - 48)) 0

/-- The `Torrent` named tuple (src lines 187-192). -/
structure Torrent where
  id : Nat
  name : PyStr
  deriving Repr, DecidableEq

/-- The network behaviour of the apibay JSON endpoint as seen by
`tpb_get_torrent`: for a torrent id, either a raised exception (connection
error, timeout, or a `json.load` parse failure) or the parsed JSON object,
modelled as a key-value list. -/
def TpbNet : Type := Nat → Except PyErr (List (PyStr × PyStr))

/-- Python dictionary lookup `obj["name"]`: `KeyError` when missing. -/
def jsonGet (obj : List (PyStr × PyStr)) (k : PyStr) : Except PyErr PyStr :=
  match obj.find? (fun p => decide (p.1 = k)) with
  | some p => Except.ok p.2
  | none => Except.error PyErr.keyError

/-- `tpb_get_torrent` (src lines 195-208): `urlopen` + `json.load` +
`json_["name"]`.  The body contains no `try`/`except`, so every failure
propagates to the caller. -/
def tpb_get_torrent (net : TpbNet) (tid : Nat) : Except PyErr Torrent :=
  match net tid with
  | Except.error e => Except.error e
  | Except.ok json_ =>
    match jsonGet json_ ("name".toList) with
    | Except.error e => Except.error e
    | Except.ok nm => Except.ok ⟨tid, nm⟩

/-- `tpb_get_torrent_by_url` (src lines 214-226): apply only when the path
ends with `description.php` and the query matches the id pattern; a raised
exception from `tpb_get_torrent` propagates. -/
def tpb_get_torrent_by_url (net : TpbNet) (url : ParseResult) :
    Except PyErr (Option Torrent) :=
  if listEndsWith ("description.php".toList) url.path = true then
    match query_id_match url.query with
    | some ds =>
      match tpb_get_torrent net (digitsToNat ds) with
      | Except.error e => Except.error e
      | Except.ok t => Except.ok (some t)
    | none => Except.ok none
  else Except.ok none

/-- Not `<` and not `>`: the class `[^<>]` of the title regex. -/
def notAngle (c : Char) : Bool := !(c = '<' || c = '>')

/-- Case-insensitive literal prefix (the `(?i)` flag of the title regex). -/
def listBeginsWithCI : PyStr → PyStr → Bool
  | [], _ => true
  | _ :: _, [] => false
  | p :: ps, c :: cs => p.toLower = c.toLower && listBeginsWithCI ps cs

/-- One attempted match of `(?i)<title ?[^<>]*>([^<>]*)</title>`
(src line 162) at the head of `s`.  The optional space is subsumed by the
following `[^<>]*`; each `[^<>]*` is matched greedily, which is exact
because the characters that must follow (`>` and `<`) are excluded from
the class. -/
def tryTitleAt (s : PyStr) : Option PyStr :=
  if listBeginsWithCI ("<title".toList) s = true then
    let rest1 := s.drop 6
    let attrs := rest1.takeWhile notAngle
    match rest1.drop attrs.length with
    | '>' :: rest2 =>
      let content := rest2.takeWhile notAngle
      let rest3 := rest2.drop content.length
      if listBeginsWithCI ("</title>".toList) rest3 = true then some content
      else none
    | _ => none
  else none

/-- `re.search` of the title regex: the match at the leftmost possible
starting position. -/
def titleSearch : PyStr → Option PyStr
  | [] => none
  | c :: rest =>
    match tryTitleAt (c :: rest) with
    | some content => some content
    | none => titleSearch rest

/-! A model of CPython `html.unescape`. -/

/-- Abridged table of named character references (CPython uses the full
html5 table); no verified claim depends on the table entries. -/
def namedEntities : List (PyStr × PyStr) :=
  [("amp".toList, "&".toList), ("lt".toList, "<".toList),
   ("gt".toList, ">".toList), ("quot".toList, "\"".toList),
   ("apos".toList, [Char.ofNat 39]), ("nbsp".toList, [Char.ofNat 160]),
   ("hellip".toList, [Char.ofNat 0x2026])]

/-- Characters of an entity name after the first. -/
def isEntityNameChar (c : Char) : Bool := c.isAlphanum || c = '-' || c = '.'

/-- A hexadecimal digit. -/
def isHexDigitCh (c : Char) : Bool :=
  c.isDigit || ('a' ≤ c && c ≤ 'f') || ('A' ≤ c && c ≤ 'F')

/-- Value of a hexadecimal digit. -/
def hexVal (c : Char) : Nat :=
  if c.isDigit then c.toNat - 48
  else if 'a' ≤ c then c.toNat - 87
  else c.toNat - 55

/-- Hexadecimal string to number. -/
def hexToNat (ds : PyStr) : Nat := ds.foldl (fun a c => a * 16 + hexVal c) 0

/-- The character for a numeric reference: invalid code points become the
replacement character (CPython additionally remaps some windows-1252 code
points, omitted here). -/
def charFromCodepoint (n : Nat) : PyStr :=
  if n = 0 ∨ (0xD800 ≤ n ∧ n ≤ 0xDFFF) ∨ 0x10FFFF < n then [Char.ofNat 0xFFFD]
  else [Char.ofNat n]

/-- The substitution loop of `html.unescape`: replace `&#d+;?`,
`&#x h+;?` and named references `&name;`; anything else is copied
(CPython also resolves some names without the semicolon, omitted here). -/
def unescapeGo : Nat → PyStr → PyStr
  | 0, s => s
  | _+1, [] => []
  | fuel+1, c :: rest =>
    if c = '&' then
      match rest with
      | '#' :: r2 =>
        let hexMode := r2.take 1 = ['x'] ∨ r2.take 1 = ['X']
        let body := if hexMode then r2.drop 1 else r2
        let ds := body.takeWhile (if hexMode then isHexDigitCh else Char.isDigit)
        if ds = [] then c :: unescapeGo fuel rest
        else
          let n := if hexMode then hexToNat ds else digitsToNat ds
          let after := body.drop ds.length
          let after2 := if after.take 1 = [';'] then after.drop 1 else after
          charFromCodepoint n ++ unescapeGo fuel after2
      | _ =>
        let nm := rest.takeWhile isEntityNameChar
        let after := rest.drop nm.length
        if after.take 1 = [';'] then
          match namedEntities.find? (fun p => decide (p.1 = nm)) with
          | some p => p.2 ++ unescapeGo fuel (after.drop 1)
          | none => c :: unescapeGo fuel rest
        else c :: unescapeGo fuel rest
    else c :: unescapeGo fuel rest

/-- CPython `html.unescape`: a string without `&` is returned unchanged
(the exact fast path); otherwise character references are substituted. -/
def html_unescape (s : PyStr) : PyStr :=
  if s.contains '&' then unescapeGo s.length s else s

/-- The Pirate Bay banner string of src line 179. -/
def banner : PyStr :=
  "The Pirate Bay - The galaxy".toList
    ++ Char.ofNat 39 :: "s most resilient bittorrent site".toList

/-- `get_title` (src lines 154-184): regex search for the first title
element, entity-decode, collapse whitespace, and the torrent special case
(`stripped_title.find(banner) == 0` is the prefix test).  A raised
exception from the torrent lookup propagates. -/
def get_title (net : TpbNet) (html_doc : Document) :
    Except PyErr (Option PyStr) :=
  match titleSearch html_doc.src with
  | none => Except.ok none
  | some captured =>
    let stripped_title := strip_title (html_unescape captured)
    if listBeginsWith banner stripped_title = true then
      match tpb_get_torrent_by_url net html_doc.url with
      | Except.error e => Except.error e
      | Except.ok (some torrent) =>
        Except.ok (some ("TPB torrent: ".toList ++ torrent.name))
      | Except.ok none => Except.ok (some stripped_title)
    else Except.ok (some stripped_title)

/-! List facts used by the query-pattern lemmas. -/

theorem takeWhile_of_all {p : Char → Bool} :
    ∀ {l : PyStr}, l.all p = true → l.takeWhile p = l := by
  intro l
  induction l with
  | nil => intro _; rfl
  | cons c rest ih =>
    intro h
    rw [List.all_cons, Bool.and_eq_true] at h
    rw [List.takeWhile_cons, if_pos h.1, ih h.2]

theorem takeWhile_append_drop (p : Char → Bool) :
    ∀ (l : PyStr), l.takeWhile p ++ l.drop (l.takeWhile p).length = l := by
  intro l
  induction l with
  | nil => rfl
  | cons c rest ih =>
    rw [List.takeWhile_cons]
    by_cases hc : p c
    · rw [if_pos hc]
      simp only [List.length_cons, List.drop_succ_cons, List.cons_append]
      rw [ih]
    · rw [if_neg hc]
      rfl

theorem mem_takeWhile_true {p : Char → Bool} :
    ∀ {l : PyStr} {x : Char}, x ∈ l.takeWhile p → p x = true := by
  intro l
  induction l with
  | nil => intro x h; cases h
  | cons c rest ih =>
    intro x h
    rw [List.takeWhile_cons] at h
    by_cases hc : p c
    · rw [if_pos hc] at h
      rcases List.mem_cons.1 h with h | h
      · subst h; exact hc
      · exact ih h
    · rw [if_neg hc] at h
      cases h

theorem getLast?_append_right :
    ∀ (l r : PyStr), r ≠ [] → (l ++ r).getLast? = r.getLast? := by
  intro l
  induction l with
  | nil => intro r _; rfl
  | cons a l' ih =>
    intro r hr
    rw [List.cons_append]
    have h2 : l' ++ r ≠ [] := fun h => hr (List.append_eq_nil.1 h).2
    cases hlr : l' ++ r with
    | nil => exact absurd hlr h2
    | cons x xs =>
      rw [List.getLast?_cons_cons, ← hlr, ih r hr]

theorem mem_of_getLast? :
    ∀ {l : PyStr} {a : Char}, l.getLast? = some a → a ∈ l := by
  intro l
  induction l with
  | nil => intro a h; cases h
  | cons c rest ih =>
    intro a h
    cases rest with
    | nil =>
      simp only [List.getLast?_singleton, Option.some.injEq] at h
      simp [h]
    | cons d rest' =>
      rw [List.getLast?_cons_cons] at h
      exact List.mem_cons_of_mem c (ih h)

theorem getLast?_drop_ne_nil {l : PyStr} {m : Nat} (h : l.drop m ≠ []) :
    (l.drop m).getLast? = l.getLast? := by
  conv_rhs => rw [← List.take_append_drop m l]
  rw [getLast?_append_right _ _ h]

/-- A non-digit member of `t` survives into the part after the greedy
digit run. -/
theorem mem_after_digits {t : PyStr} {x : Char} (hx : x.isDigit = false)
    (hmem : x ∈ t) :
    x ∈ t.drop (t.takeWhile Char.isDigit).length := by
  have hsplit := takeWhile_append_drop Char.isDigit t
  rw [← hsplit] at hmem
  rcases List.mem_append.1 hmem with h | h
  · exact absurd (mem_takeWhile_true h) (by rw [hx]; exact Bool.false_ne_true)
  · exact h

/-- The equals sign of the `id=` marker occurs after dropping two
characters of `pre ++ "id=" ++ ds`. -/
theorem eq_mem_drop_two (pre ds : PyStr) :
    '=' ∈ (pre ++ ('i' :: 'd' :: '=' :: ds)).drop 2 := by
  cases pre with
  | nil =>
    show '=' ∈ '=' :: ds
    exact List.mem_cons_self _ _
  | cons a pre' =>
    cases pre' with
    | nil =>
      show '=' ∈ 'd' :: '=' :: ds
      exact List.mem_cons_of_mem _ (List.mem_cons_self _ _)
    | cons b pre'' =>
      show '=' ∈ pre'' ++ ('i' :: 'd' :: '=' :: ds)
      refine List.mem_append.2 (Or.inr ?_)
      exact List.mem_cons_of_mem _
        (List.mem_cons_of_mem _ (List.mem_cons_self _ _))

/-- A fired `id=` candidate whose digits do not reach the end of the query
fails its check: the remainder after the digit run still contains `=`. -/
theorem queryIdGo_fire_fails (c : Char) (pre' ds : PyStr)
    (hq : c :: (pre' ++ ('i' :: 'd' :: '=' :: ds))
        = 'i' :: 'd' :: '=' :: ((pre' ++ ('i' :: 'd' :: '=' :: ds)).drop 2)) :
    ¬ (((c :: (pre' ++ ('i' :: 'd' :: '=' :: ds))).drop 3).takeWhile
          Char.isDigit ≠ []
      ∧ (((c :: (pre' ++ ('i' :: 'd' :: '=' :: ds))).drop 3).drop
          (((c :: (pre' ++ ('i' :: 'd' :: '=' :: ds))).drop 3).takeWhile
            Char.isDigit).length = []
        ∨ ((c :: (pre' ++ ('i' :: 'd' :: '=' :: ds))).drop 3).drop
          (((c :: (pre' ++ ('i' :: 'd' :: '=' :: ds))).drop 3).takeWhile
            Char.isDigit).length = ['\n'])) := by
  rintro ⟨-, htail⟩
  have ht3 : (c :: (pre' ++ ('i' :: 'd' :: '=' :: ds))).drop 3
      = (pre' ++ ('i' :: 'd' :: '=' :: ds)).drop 2 := by
    conv_lhs => rw [hq]
    rfl
  have hmem : '=' ∈ (c :: (pre' ++ ('i' :: 'd' :: '=' :: ds))).drop 3 := by
    rw [ht3]; exact eq_mem_drop_two pre' ds
  have hmem2 := mem_after_digits (by decide) hmem
  rcases htail with h0 | h0
  · rw [h0] at hmem2; cases hmem2
  · rw [h0] at hmem2
    rcases List.mem_cons.1 hmem2 with h | h
    · cases h
    · cases h

/-- Success of the query-id scan: parameters before the `id=` marker (each
segment ending in `&`) are skipped, and the digit group reaching the end
is captured. -/
theorem queryIdGo_success (ds : PyStr) (hds1 : ds ≠ [])
    (hds2 : ds.all Char.isDigit = true) :
    ∀ (pre : PyStr) (flag : Bool),
      (pre = [] → flag = true) →
      (pre ≠ [] → pre.getLast? = some '&') →
      queryIdGo flag (pre ++ ("id=".toList ++ ds)) = some ds := by
  intro pre
  induction pre with
  | nil =>
    intro flag hf _
    rw [hf rfl]
    show queryIdGo true ('i' :: 'd' :: '=' :: ds) = some ds
    rw [queryIdGo]
    have hbeg : listBeginsWith ("id=".toList) ('i' :: 'd' :: '=' :: ds)
        = true := listBeginsWith_append "id=".toList ds
    rw [if_pos ⟨rfl, hbeg⟩]
    simp only [List.drop_succ_cons, List.drop_zero]
    rw [takeWhile_of_all hds2]
    rw [List.drop_length]
    rw [if_pos ⟨hds1, Or.inl rfl⟩]
  | cons c pre' ih =>
    intro flag hf hlast
    have hlast' : (c :: pre').getLast? = some '&' :=
      hlast (List.cons_ne_nil c pre')
    have hshape : (c :: pre') ++ ("id=".toList ++ ds)
        = c :: (pre' ++ ('i' :: 'd' :: '=' :: ds)) := rfl
    rw [hshape, queryIdGo]
    have hrec : queryIdGo (decide (c = '&'))
        (pre' ++ ('i' :: 'd' :: '=' :: ds)) = some ds := by
      have := ih (decide (c = '&')) ?hf' ?hl'
      · exact this
      case hf' =>
        intro hpre'
        subst hpre'
        simp only [List.getLast?_singleton, Option.some.injEq] at hlast'
        simp [hlast']
      case hl' =>
        intro hpre'
        cases pre' with
        | nil => exact absurd rfl hpre'
        | cons x xs =>
          rw [List.getLast?_cons_cons] at hlast'
          exact hlast'
    by_cases hfire : (flag = true)
        ∧ listBeginsWith ("id=".toList)
            (c :: (pre' ++ ('i' :: 'd' :: '=' :: ds))) = true
    · rw [if_pos hfire]
      have hq : c :: (pre' ++ ('i' :: 'd' :: '=' :: ds))
          = 'i' :: 'd' :: '='
              :: ((pre' ++ ('i' :: 'd' :: '=' :: ds)).drop 2) := by
        rcases (listBeginsWith_iff _ _).1 hfire.2 with ⟨r, hr⟩
        have hr' : c :: (pre' ++ ('i' :: 'd' :: '=' :: ds))
            = 'i' :: 'd' :: '=' :: r := hr
        injection hr' with hc1 hc2
        rw [hc1, hc2]
        rfl
      rw [if_neg (queryIdGo_fire_fails c pre' ds hq)]
      exact hrec
    · rw [if_neg hfire]
      exact hrec

/-- Failure of the query-id scan when the last character of the query is
neither a digit nor a newline: no candidate digit run can reach the end. -/
theorem queryIdGo_none_of_last (cl : Char) (h1 : cl.isDigit = false)
    (h2 : cl ≠ '\n') :
    ∀ (q : PyStr) (flag : Bool), q.getLast? = some cl →
      queryIdGo flag q = none := by
  intro q
  induction q with
  | nil => intro flag h; cases h
  | cons c rest ih =>
    intro flag hlast
    cases rest with
    | nil =>
      rw [queryIdGo]
      rw [if_neg (fun hh => by simp [listBeginsWith] at hh)]
      rfl
    | cons d rest' =>
      have hlast' : (d :: rest').getLast? = some cl := by
        rw [List.getLast?_cons_cons] at hlast
        exact hlast
      rw [queryIdGo]
      by_cases hfire : (flag = true)
          ∧ listBeginsWith ("id=".toList) (c :: d :: rest') = true
      · rw [if_pos hfire]
        have hin : ¬ (((c :: d :: rest').drop 3).takeWhile Char.isDigit ≠ []
            ∧ (((c :: d :: rest').drop 3).drop
                (((c :: d :: rest').drop 3).takeWhile Char.isDigit).length = []
              ∨ ((c :: d :: rest').drop 3).drop
                (((c :: d :: rest').drop 3).takeWhile Char.isDigit).length
                  = ['\n'])) := by
          rintro ⟨hne, htail⟩
          set t := (c :: d :: rest').drop 3 with ht
          set dsr := t.takeWhile Char.isDigit with hdsr
          have htne : t ≠ [] := by
            intro h0
            rw [h0] at hdsr
            exact hne (by rw [hdsr]; rfl)
          have hlt : t.getLast? = some cl := by
            rw [ht]
            exact getLast?_drop_ne_nil (ht ▸ htne) |>.trans hlast
          rcases htail with h0 | h0
          · have hteq : t = dsr := by
              have := takeWhile_append_drop Char.isDigit t
              rw [← hdsr] at this
              rw [← this, h0, List.append_nil]
            have : cl ∈ dsr := hteq ▸ mem_of_getLast? hlt
            exact absurd (mem_takeWhile_true this)
              (by rw [h1]; exact Bool.false_ne_true)
          · have hteq : t = dsr ++ ['\n'] := by
              have := takeWhile_append_drop Char.isDigit t
              rw [← hdsr] at this
              rw [← this, h0]
            have : t.getLast? = some '\n' := by
              rw [hteq, getLast?_append_right _ _ (by simp)]
              rfl
            rw [hlt] at this
            exact h2 (Option.some.inj this)
        rw [if_neg hin]
        exact ih (decide (c = '&')) hlast'
      · rw [if_neg hfire]
        exact ih (decide (c = '&')) hlast'

/-! Claims C7 and C1. -/

/-- A network oracle that answers every torrent id with a JSON object
`{"name": "x"}`. -/
def okNet : TpbNet := fun _ => Except.ok [("name".toList, "x".toList)]

/-- C7 counterexample: for a URL whose path ends in `description.php` and
whose query is `id=42&foo=bar`, the claim says the resolver still resolves
torrent id 42; the code returns absent (the regex anchors the digit group
at the end of the query), even though the API would have answered. -/
theorem c7_counterexample :
    tpb_get_torrent_by_url okNet
        ⟨"https".toList, "thepiratebay.org".toList,
          "/torrent/description.php".toList, [], "id=42&foo=bar".toList, []⟩
      = Except.ok none
    ∧ tpb_get_torrent okNet 42 = Except.ok ⟨42, "x".toList⟩ := by
  constructor
  · rfl
  · rfl

/-- C7 (amended): the resolver applies exactly when the URL path ends with
`description.php` and the query string ends with a parameter `id=<digits>`
at a parameter boundary (the start of the query or right after a `&`);
other parameters are permitted only before the id parameter.  With
parameters after it (the query `...id=<digits>&foo=bar`) the resolver
returns absent, and when the pattern matches the torrent with the captured
id is fetched (any exception propagating). -/
theorem c7_resolver_pattern (net : TpbNet) (s n p par f pre ds : PyStr)
    (hpath : listEndsWith ("description.php".toList) p = true)
    (hpre : pre = [] ∨ pre.getLast? = some '&')
    (hds1 : ds ≠ []) (hds2 : ds.all Char.isDigit = true) :
    tpb_get_torrent_by_url net
        ⟨s, n, p, par, pre ++ ("id=".toList ++ ds), f⟩
        = (tpb_get_torrent net (digitsToNat ds)).map some
    ∧ tpb_get_torrent_by_url net
        ⟨s, n, p, par, (pre ++ ("id=".toList ++ ds)) ++ "&foo=bar".toList, f⟩
        = Except.ok none := by
  constructor
  · rw [tpb_get_torrent_by_url]
    rw [if_pos hpath]
    have hq : query_id_match (pre ++ ("id=".toList ++ ds)) = some ds := by
      rw [query_id_match]
      apply queryIdGo_success ds hds1 hds2 pre true (fun _ => rfl)
      intro hne
      rcases hpre with h | h
      · exact absurd h hne
      · exact h
    rw [hq]
    show (match tpb_get_torrent net (digitsToNat ds) with
          | Except.error e => Except.error e
          | Except.ok t => Except.ok (some t))
        = (tpb_get_torrent net (digitsToNat ds)).map some
    cases tpb_get_torrent net (digitsToNat ds) with
    | error e => rfl
    | ok t => rfl
  · rw [tpb_get_torrent_by_url]
    rw [if_pos hpath]
    have hq : query_id_match ((pre ++ ("id=".toList ++ ds))
        ++ "&foo=bar".toList) = none := by
      rw [query_id_match]
      apply queryIdGo_none_of_last 'r' (by decide) (by decide)
      rw [getLast?_append_right _ _ (by decide)]
      rfl
    rw [hq]

/-- C7 witness: parameters before the id resolve; a parameter after it
yields absent. -/
theorem c7_resolver_pattern_witness :
    tpb_get_torrent_by_url okNet
        ⟨"https".toList, "thepiratebay.org".toList,
          "/torrent/description.php".toList, [],
          "foo=bar&".toList ++ ("id=".toList ++ "42".toList), []⟩
        = Except.ok (some ⟨42, "x".toList⟩)
    ∧ tpb_get_torrent_by_url okNet
        ⟨"https".toList, "thepiratebay.org".toList,
          "/torrent/description.php".toList, [],
          ("foo=bar&".toList ++ ("id=".toList ++ "42".toList))
            ++ "&foo=bar".toList, []⟩
        = Except.ok none := by
  have h := c7_resolver_pattern okNet "https".toList "thepiratebay.org".toList
    "/torrent/description.php".toList [] [] "foo=bar&".toList "42".toList
    (by decide) (Or.inr (by decide)) (by decide) (by decide)
  exact ⟨h.1.trans (by rfl), h.2⟩

/-- The document of the torrent special case: a Pirate Bay description
page whose title is exactly the banner. -/
def tpbDoc : Document :=
  ⟨⟨"https".toList, "thepiratebay.org".toList,
    "/torrent/description.php".toList, [], "id=42".toList, []⟩,
   "<title>".toList ++ banner ++ "</title>".toList⟩

set_option maxRecDepth 40000 in
/-- C1 counterexample: a connection failure during the torrent metadata
lookup is not caught: `get_title` raises it to the message-handling layer
instead of falling back to the raw extracted title. -/
theorem c1_counterexample :
    get_title (fun _ => Except.error PyErr.urlError) tpbDoc
        = Except.error PyErr.urlError
    ∧ get_title (fun _ => Except.error PyErr.urlError) tpbDoc
        ≠ Except.ok (some banner) := by
  have h1 : get_title (fun _ => Except.error PyErr.urlError) tpbDoc
      = Except.error PyErr.urlError := by rfl
  refine ⟨h1, ?_⟩
  rw [h1]
  intro h
  exact Except.noConfusion h

set_option maxRecDepth 40000 in
/-- Evaluation of `get_title` on the banner document, for a symbolic
network oracle: the torrent lookup result is reached. -/
theorem get_title_tpbDoc (net : TpbNet) :
    get_title net tpbDoc
      = match tpb_get_torrent net 42 with
        | Except.error e => Except.error e
        | Except.ok t => Except.ok (some ("TPB torrent: ".toList ++ t.name)) := by
  have hsearch : titleSearch tpbDoc.src = some banner := by decide
  rw [get_title, hsearch]
  have hstrip : strip_title (html_unescape banner) = banner := by decide
  show (if listBeginsWith banner (strip_title (html_unescape banner)) = true
        then
          match tpb_get_torrent_by_url net tpbDoc.url with
          | Except.error e => Except.error e
          | Except.ok (some torrent) =>
            Except.ok (some ("TPB torrent: ".toList ++ torrent.name))
          | Except.ok none =>
            Except.ok (some (strip_title (html_unescape banner)))
        else Except.ok (some (strip_title (html_unescape banner)))) = _
  rw [hstrip]
  rw [if_pos (by decide : listBeginsWith banner banner = true)]
  have hurl : tpb_get_torrent_by_url net tpbDoc.url
      = (tpb_get_torrent net 42).map some := by
    rw [tpb_get_torrent_by_url]
    rw [if_pos (by decide)]
    have hq : query_id_match tpbDoc.url.query = some ("42".toList) := by decide
    rw [hq]
    have h42 : digitsToNat ("42".toList) = 42 := by decide
    show (match tpb_get_torrent net (digitsToNat ("42".toList)) with
          | Except.error e => Except.error e
          | Except.ok t => Except.ok (some t))
        = (tpb_get_torrent net 42).map some
    rw [h42]
    cases tpb_get_torrent net 42 with
    | error e => rfl
    | ok t => rfl
  rw [hurl]
  cases tpb_get_torrent net 42 with
  | error e => rfl
  | ok t => rfl

/-- C1 (amended): pattern mismatch is converted into absence, but
network-facing failures of the torrent metadata lookup are not caught at
the resolver boundary: `tpb_get_torrent` propagates the exception, and
`get_title` on a banner-titled description page raises it to its caller
(`on_privmsg`) instead of returning the raw extracted title. -/
theorem c1_torrent_failures_propagate (net : TpbNet) (e : PyErr)
    (h : net 42 = Except.error e) :
    tpb_get_torrent net 42 = Except.error e
    ∧ get_title net tpbDoc = Except.error e
    ∧ (∀ (net' : TpbNet) (u : ParseResult),
        listEndsWith ("description.php".toList) u.path = false →
        tpb_get_torrent_by_url net' u = Except.ok none) := by
  have h1 : tpb_get_torrent net 42 = Except.error e := by
    rw [tpb_get_torrent, h]
  refine ⟨h1, ?_, ?_⟩
  · rw [get_title_tpbDoc net, h1]
  · intro net' u hu
    rw [tpb_get_torrent_by_url]
    rw [if_neg (by rw [hu]; exact Bool.false_ne_true)]

/-- C1 witness: a socket timeout propagates out of `get_title`. -/
theorem c1_torrent_failures_propagate_witness :
    get_title (fun _ => Except.error PyErr.socketTimeout) tpbDoc
      = Except.error PyErr.socketTimeout :=
  (c1_torrent_failures_propagate (fun _ => Except.error PyErr.socketTimeout)
    PyErr.socketTimeout rfl).2.1

/-! Claim C9: the empty-title edge case. -/

theorem ws_notAngle {c : Char} (h : isPySpace c = true) : notAngle c = true := by
  by_cases h1 : c = '<'
  · subst h1; exact absurd h (by decide)
  · by_cases h2 : c = '>'
    · subst h2; exact absurd h (by decide)
    · simp [notAngle, h1, h2]

theorem collapseGo_all_ws :
    ∀ {w : PyStr}, w.all isPySpace = true → collapseGo false w = [] := by
  intro w
  induction w with
  | nil => intro _; rfl
  | cons c rest ih =>
    intro h
    rw [List.all_cons, Bool.and_eq_true] at h
    rw [collapseGo, if_pos h.1]
    simpa using ih h.2

theorem contains_amp_all_ws {w : PyStr} (h : w.all isPySpace = true) :
    w.contains '&' = false := by
  cases hc : w.contains '&' with
  | false => rfl
  | true =>
    have hmem : '&' ∈ w := by
      rcases List.contains_iff_exists_mem_beq.1 hc with ⟨x, hx, hbeq⟩
      rwa [show '&' = x from beq_iff_eq.1 hbeq]
    have := List.all_eq_true.1 h '&' hmem
    exact absurd this (by decide)

/-- C9: for a fetched document whose first title element has empty or
all-whitespace content, `get_title` returns the empty string rather than
absent; the coordinator keeps this empty string as a non-absent entry,
skipping only the truncation step; and the dispatcher emits an output line
with an empty title part (`1:\t` in Display mode) instead of suppressing
the line as it does for absent titles. -/
theorem c9_empty_title (net : TpbNet) (u : ParseResult) (w : PyStr)
    (hw : w.all isPySpace = true) :
    get_title net ⟨u, "<title>".toList ++ w ++ "</title>".toList⟩
        = Except.ok (some [])
    ∧ (∀ ml : Nat, coordinator_title ml (some []) = some [])
    ∧ show_lines_display [some []] = ["1:\t".toList]
    ∧ show_lines_display [none] = [] := by
  refine ⟨?_, fun ml => rfl, by decide, rfl⟩
  have hWnotAngle : ∀ c ∈ w, notAngle c = true :=
    fun c hc => ws_notAngle (List.all_eq_true.1 hw c hc)
  have hshape : "<title>".toList ++ w ++ "</title>".toList
      = '<' :: 't' :: 'i' :: 't' :: 'l' :: 'e' :: '>'
          :: (w ++ "</title>".toList) := rfl
  have hsearch : titleSearch ("<title>".toList ++ w ++ "</title>".toList)
      = some w := by
    rw [hshape, titleSearch]
    have htry : tryTitleAt ('<' :: 't' :: 'i' :: 't' :: 'l' :: 'e' :: '>'
        :: (w ++ "</title>".toList)) = some w := by
      rw [tryTitleAt,
        if_pos (show listBeginsWithCI ("<title".toList)
            ('<' :: 't' :: 'i' :: 't' :: 'l' :: 'e' :: '>'
              :: (w ++ "</title>".toList)) = true from rfl)]
      show (if listBeginsWithCI ("</title>".toList)
              ((w ++ "</title>".toList).drop
                ((w ++ "</title>".toList).takeWhile notAngle).length) = true
            then some ((w ++ "</title>".toList).takeWhile notAngle)
            else none) = some w
      have hcw : (w ++ "</title>".toList).takeWhile notAngle = w := by
        rw [takeWhile_append_all hWnotAngle]
        rw [show ("</title>".toList).takeWhile notAngle = [] from rfl]
        rw [List.append_nil]
      rw [hcw, List.drop_left,
        if_pos (show listBeginsWithCI ("</title>".toList) ("</title>".toList)
          = true from rfl)]
    rw [htry]
  show get_title net ⟨u, "<title>".toList ++ w ++ "</title>".toList⟩
      = Except.ok (some [])
  rw [get_title, hsearch]
  show (if listBeginsWith banner (strip_title (html_unescape w)) = true then
          match tpb_get_torrent_by_url net
              (⟨u, "<title>".toList ++ w ++ "</title>".toList⟩
                : Document).url with
          | Except.error e => Except.error e
          | Except.ok (some torrent) =>
            Except.ok (some ("TPB torrent: ".toList ++ torrent.name))
          | Except.ok none =>
            Except.ok (some (strip_title (html_unescape w)))
        else Except.ok (some (strip_title (html_unescape w))))
      = Except.ok (some [])
  have hun : html_unescape w = w := by
    rw [html_unescape,
      if_neg (by rw [contains_amp_all_ws hw]; exact Bool.false_ne_true)]
  have hst : strip_title w = [] := by
    rw [strip_title, collapse_ws_eq_go, collapseGo_all_ws hw]
    rfl
  rw [hun, hst]
  rw [if_neg (by decide : ¬ listBeginsWith banner [] = true)]

/-- C9 witness: a single-space title content. -/
theorem c9_empty_title_witness :
    ([' '] : PyStr).all isPySpace = true
    ∧ get_title (fun _ => Except.error PyErr.urlError)
        ⟨exampleUrl, "<title>".toList ++ [' '] ++ "</title>".toList⟩
        = Except.ok (some []) :=
  ⟨by decide,
    (c9_empty_title (fun _ => Except.error PyErr.urlError) exampleUrl [' ']
      (by decide)).1⟩

end Urltitel
